import Mathlib

/-!
Shallow embedding of `src/bleaktyped/marshall.py` (the marshalling subsystem
of the bleaktyped repository) and proofs about it.

Modelling conventions:
* Python byte strings are `List ℕ` whose elements are below 256 (theorems carry
  that bound as a hypothesis where it matters).
* Python values flowing through the marshallers are the inductive `PyVal`.
* Python floats are modelled by `FloatVal`: a float obtained by unpacking an
  IEEE 754 double is kept as its 8 raw bytes (`f64bits`, a faithful bit-level
  view since CPython floats are IEEE doubles and the struct code `<d` is their
  little-endian bit pattern); a float obtained by unpacking a 32-bit float is
  kept as its 4 raw bytes (`f32bits`); a float produced by arithmetic is an
  exact rational (`rat`).  Rational arithmetic models Python float arithmetic
  exactly; this is faithful whenever operands and results are exactly
  representable doubles, which holds for every value exercised below.
* Fallible Python operations return `Except PyErr _`.  The constructor
  `PyErr.unmodelled` marks operations on value combinations that this
  development does not model (e.g. parsing an int out of a str, sequence
  repetition by an int, packing an arithmetic float into `<f` bytes); no
  theorem below ever asserts that an error equals `unmodelled`, so those
  branches are never load-bearing.
-/

instance {ε α : Type} [DecidableEq ε] [DecidableEq α] : DecidableEq (Except ε α) :=
  fun x y =>
    match x, y with
    | .ok a, .ok b =>
      if h : a = b then .isTrue (h ▸ rfl) else .isFalse (fun hh => h (Except.ok.inj hh))
    | .ok _, .error _ => .isFalse (fun hh => Except.noConfusion hh)
    | .error _, .ok _ => .isFalse (fun hh => Except.noConfusion hh)
    | .error e, .error f =>
      if h : e = f then .isTrue (h ▸ rfl) else .isFalse (fun hh => h (Except.error.inj hh))

/-- Python exception kinds distinguished by this development. -/
inductive PyErr where
  | structError
  | assertError
  | nameError
  | typeError
  | valueError
  | attributeError
  | unicodeEncodeError
  | unicodeDecodeError
  | zeroDivisionError
  | unmodelled
  deriving DecidableEq

/-- A Python float.  `f64bits`/`f32bits` carry the raw little-endian bytes the
float was unpacked from; `rat` is an exact model of a float produced by
arithmetic (see the header comment). -/
inductive FloatVal where
  | rat (q : ℚ)
  | f64bits (bs : List ℕ)
  | f32bits (bs : List ℕ)
  deriving DecidableEq

/-- A Python value as handled by the marshalling code. -/
inductive PyVal where
  | int (n : ℤ)
  | bool (b : Bool)
  | pyFloat (x : FloatVal)
  | bytes (bs : List ℕ)
  | str (cs : List ℕ)
  deriving DecidableEq

/-- Little-endian value of a byte list (what `struct.unpack` of an unsigned
little-endian code computes). -/
def fromLE : List ℕ → ℕ
  | [] => 0
  | b :: rest => b + 256 * fromLE rest

/-- Little-endian bytes of a value, `w` bytes wide (what `struct.pack` of an
unsigned little-endian code emits for an in-range value). -/
def toLE : ℕ → ℕ → List ℕ
  | 0, _ => []
  | w + 1, n => n % 256 :: toLE w (n / 256)

/-- Two's-complement reading of an unsigned `w`-byte value, as `struct.unpack`
of a signed little-endian code computes it. -/
def signedOf (w : ℕ) (u : ℕ) : ℤ :=
  if u < 2 ^ (8 * w - 1) then (u : ℤ) else (u : ℤ) - 2 ^ (8 * w)

/-- Python `__index__` view: the ints that `struct.pack` integer codes accept
(`bool` is an `int` subclass in Python). -/
def asIndex : PyVal → Option ℤ
  | .int n => some n
  | .bool b => some (if b then 1 else 0)
  | _ => none

/-- Exact numeric view of a Python number (int, bool, or arithmetic float). -/
def toRatQ : PyVal → Option ℚ
  | .int n => some (n : ℚ)
  | .bool b => some (if b then 1 else 0)
  | .pyFloat (.rat q) => some q
  | _ => none

/-- Python truthiness, as used by `bool()` and by packing with code `<?`. -/
def pyTruthy : PyVal → Except PyErr Bool
  | .bool b => .ok b
  | .int n => .ok (n != 0)
  | .pyFloat (.rat q) => .ok (q != 0)
  | .pyFloat _ => .error .unmodelled
  | .bytes bs => .ok (bs != [])
  | .str cs => .ok (cs != [])

/-- Truncation toward zero, as Python `int()` applied to a float. -/
def ratTrunc (q : ℚ) : ℤ := q.num.tdiv q.den

/-- The Python builtin `bool`. -/
def pyBoolFn (v : PyVal) : Except PyErr PyVal :=
  Except.map PyVal.bool (pyTruthy v)

/-- The Python builtin `int` on the values this code passes it.  Parsing ints
out of strings or bytes is not modelled. -/
def pyIntFn : PyVal → Except PyErr PyVal
  | .int n => .ok (.int n)
  | .bool b => .ok (.int (if b then 1 else 0))
  | .pyFloat (.rat q) => .ok (.int (ratTrunc q))
  | .pyFloat _ => .error .unmodelled
  | .bytes _ => .error .unmodelled
  | .str _ => .error .unmodelled

/-- The Python builtin `float` on the values this code passes it. -/
def pyFloatFn : PyVal → Except PyErr PyVal
  | .pyFloat x => .ok (.pyFloat x)
  | .int n => .ok (.pyFloat (.rat (n : ℚ)))
  | .bool b => .ok (.pyFloat (.rat (if b then 1 else 0)))
  | .bytes _ => .error .unmodelled
  | .str _ => .error .unmodelled

/-- The Python builtin `bytes` (the base marshaller applies it to its input):
bytes pass through unchanged, an int `n` yields `n` zero bytes (negative n is a
ValueError), str and float raise TypeError. -/
def pyBytesFn : PyVal → Except PyErr (List ℕ)
  | .bytes bs => .ok bs
  | .int n => if n < 0 then .error .valueError else .ok (List.replicate n.toNat 0)
  | .bool b => .ok (List.replicate (if b then 1 else 0) 0)
  | .str _ => .error .typeError
  | .pyFloat _ => .error .typeError

/-- Python `*` on the values this code multiplies (numbers).  Sequence
repetition and bit-level floats are not modelled. -/
def pyMul (a b : PyVal) : Except PyErr PyVal :=
  match asIndex a, asIndex b with
  | some x, some y => .ok (.int (x * y))
  | _, _ =>
    match toRatQ a, toRatQ b with
    | some x, some y => .ok (.pyFloat (.rat (x * y)))
    | _, _ => .error .unmodelled

/-- Python true division `/` on numbers (always yields a float; exact in the
rational float model). -/
def pyDiv (a b : PyVal) : Except PyErr PyVal :=
  match toRatQ a, toRatQ b with
  | some x, some y =>
    if y = 0 then .error .zeroDivisionError else .ok (.pyFloat (.rat (x / y)))
  | _, _ => .error .unmodelled

/-- Exact value of the Python expression `10.0 ** e` (a float; modelled
exactly, faithful for the small nonnegative exponents exercised below). -/
def ratPow10 (e : ℤ) : ℚ :=
  if 0 ≤ e then (10 : ℚ) ^ e.toNat else 1 / (10 : ℚ) ^ (-e).toNat

/-- UTF-8 encoding of one code point (the byte shape `str.encode("utf8")`
emits for a non-surrogate code point). -/
def utf8EncodeChar (c : ℕ) : List ℕ :=
  if c < 0x80 then [c]
  else if c < 0x800 then [0xC0 + c / 64, 0x80 + c % 64]
  else if c < 0x10000 then [0xE0 + c / 4096, 0x80 + c / 64 % 64, 0x80 + c % 64]
  else [0xF0 + c / 262144, 0x80 + c / 4096 % 64, 0x80 + c / 64 % 64, 0x80 + c % 64]

/-- Python `str.encode("utf8")`: UTF-8 encode a string (list of code points);
lone surrogates raise UnicodeEncodeError. -/
def utf8Encode : List ℕ → Except PyErr (List ℕ)
  | [] => .ok []
  | c :: cs =>
    if 0xD800 ≤ c ∧ c < 0xE000 then .error .unicodeEncodeError
    else
      match utf8Encode cs with
      | .ok rest => .ok (utf8EncodeChar c ++ rest)
      | .error e => .error e

/-- Decode a 2-byte UTF-8 sequence with lead byte `b` (0xC2-0xDF), returning
the code point and the unconsumed bytes. -/
def utf8D2 (b : ℕ) : List ℕ → Except PyErr (ℕ × List ℕ)
  | b1 :: rest1 =>
    if 0x80 ≤ b1 ∧ b1 < 0xC0 then .ok ((b - 0xC0) * 64 + (b1 - 0x80), rest1)
    else .error .unicodeDecodeError
  | [] => .error .unicodeDecodeError

/-- Decode a 3-byte UTF-8 sequence with lead byte `b` (0xE0-0xEF): the second
byte's admissible range depends on the lead (0xE0 excludes overlong forms,
0xED excludes surrogates). -/
def utf8D3 (b : ℕ) : List ℕ → Except PyErr (ℕ × List ℕ)
  | b1 :: b2 :: rest2 =>
    if ((if b = 0xE0 then 0xA0 else 0x80) ≤ b1 ∧
          b1 < (if b = 0xED then 0xA0 else 0xC0)) ∧
        (0x80 ≤ b2 ∧ b2 < 0xC0) then
      .ok ((b - 0xE0) * 4096 + (b1 - 0x80) * 64 + (b2 - 0x80), rest2)
    else .error .unicodeDecodeError
  | _ => .error .unicodeDecodeError

/-- Decode a 4-byte UTF-8 sequence with lead byte `b` (0xF0-0xF4): the second
byte's admissible range depends on the lead (0xF0 excludes overlong forms,
0xF4 excludes code points above 0x10FFFF). -/
def utf8D4 (b : ℕ) : List ℕ → Except PyErr (ℕ × List ℕ)
  | b1 :: b2 :: b3 :: rest3 =>
    if ((if b = 0xF0 then 0x90 else 0x80) ≤ b1 ∧
          b1 < (if b = 0xF4 then 0x90 else 0xC0)) ∧
        (0x80 ≤ b2 ∧ b2 < 0xC0) ∧ (0x80 ≤ b3 ∧ b3 < 0xC0) then
      .ok ((b - 0xF0) * 262144 + (b1 - 0x80) * 4096 + (b2 - 0x80) * 64 +
            (b3 - 0x80), rest3)
    else .error .unicodeDecodeError
  | _ => .error .unicodeDecodeError

/-- Decode one UTF-8 code point whose first byte is `b` and remaining input is
`rest`.  Rejects stray continuation bytes and overlong leads 0xC0/0xC1
(`b < 0xC2`) and leads above 0xF4. -/
def utf8DecodeOne (b : ℕ) (rest : List ℕ) : Except PyErr (ℕ × List ℕ) :=
  if b < 0x80 then .ok (b, rest)
  else if b < 0xC2 then .error .unicodeDecodeError
  else if b < 0xE0 then utf8D2 b rest
  else if b < 0xF0 then utf8D3 b rest
  else if b < 0xF5 then utf8D4 b rest
  else .error .unicodeDecodeError

theorem utf8D2_length {b : ℕ} {rest : List ℕ} {c : ℕ} {rem : List ℕ}
    (h : utf8D2 b rest = .ok (c, rem)) : rem.length ≤ rest.length := by
  rcases rest with _ | ⟨b1, rest1⟩
  · simp [utf8D2] at h
  · rw [utf8D2] at h
    repeat' split at h
    any_goals (injection h with h2; rw [← (Prod.mk.inj h2).2]; simp only [List.length_cons]; omega)
    all_goals simp at h

theorem utf8D3_length {b : ℕ} {rest : List ℕ} {c : ℕ} {rem : List ℕ}
    (h : utf8D3 b rest = .ok (c, rem)) : rem.length ≤ rest.length := by
  rcases rest with _ | ⟨b1, _ | ⟨b2, rest2⟩⟩
  · simp [utf8D3] at h
  · simp [utf8D3] at h
  · rw [utf8D3] at h
    repeat' split at h
    any_goals (injection h with h2; rw [← (Prod.mk.inj h2).2]; simp only [List.length_cons]; omega)
    all_goals simp at h

theorem utf8D4_length {b : ℕ} {rest : List ℕ} {c : ℕ} {rem : List ℕ}
    (h : utf8D4 b rest = .ok (c, rem)) : rem.length ≤ rest.length := by
  rcases rest with _ | ⟨b1, _ | ⟨b2, _ | ⟨b3, rest3⟩⟩⟩
  · simp [utf8D4] at h
  · simp [utf8D4] at h
  · simp [utf8D4] at h
  · rw [utf8D4] at h
    repeat' split at h
    any_goals (injection h with h2; rw [← (Prod.mk.inj h2).2]; simp only [List.length_cons]; omega)
    all_goals simp at h

theorem utf8DecodeOne_length {b : ℕ} {rest : List ℕ} {c : ℕ} {rem : List ℕ}
    (h : utf8DecodeOne b rest = .ok (c, rem)) : rem.length ≤ rest.length := by
  rw [utf8DecodeOne] at h
  split at h
  · injection h with h2
    rw [← (Prod.mk.inj h2).2]
  · split at h
    · simp at h
    · split at h
      · exact utf8D2_length h
      · split at h
        · exact utf8D3_length h
        · split at h
          · exact utf8D4_length h
          · simp at h

/-- Python `bytes.decode("utf8")`: strict UTF-8 decoding.  Rejects stray
continuation bytes, overlong forms, surrogates, leads above 0xF4, code points
above 0x10FFFF, and truncated sequences. -/
def utf8Decode : List ℕ → Except PyErr (List ℕ)
  | [] => .ok []
  | b :: rest =>
    match h : utf8DecodeOne b rest with
    | .error e => .error e
    | .ok (c, rem) => Except.map (List.cons c) (utf8Decode rem)
termination_by bs => bs.length
decreasing_by
  simp only [List.length_cons]
  exact Nat.lt_succ_of_le (utf8DecodeOne_length h)

/-- The source's `str2bytes`: bytes pass through (the `type(s) == bytes`
branch), strings are UTF-8 encoded, anything else has no `.encode` attribute. -/
def str2bytes : PyVal → Except PyErr PyVal
  | .bytes bs => .ok (.bytes bs)
  | .str cs => Except.map PyVal.bytes (utf8Encode cs)
  | _ => .error .attributeError

/-- The source's `bytes2str`: `b.decode("utf8")`. -/
def bytes2str : PyVal → Except PyErr PyVal
  | .bytes bs => Except.map PyVal.str (utf8Decode bs)
  | _ => .error .attributeError

/-- A struct format string of the registry, as (kind, byte width):
`<?` is `pbool`; `<B`,`<H`,`<I`,`<Q` are `puint 1/2/4/8`; `<b`,`<h`,`<i` are
`psint 1/2/4`; `<f` is `pf32`; `<d` is `pf64`. -/
inductive PackFmt where
  | pbool
  | puint (w : ℕ)
  | psint (w : ℕ)
  | pf32
  | pf64
  deriving DecidableEq

/-- `struct.pack` of one value with a registry format string (little-endian,
standard sizes): range-checked, raises struct.error for out-of-range or
non-int arguments. -/
def packFmt : PackFmt → PyVal → Except PyErr (List ℕ)
  | .pbool, v => Except.map (fun b => [if b then 1 else 0]) (pyTruthy v)
  | .puint w, v =>
    match asIndex v with
    | some n =>
      if 0 ≤ n ∧ n < 2 ^ (8 * w) then .ok (toLE w n.toNat) else .error .structError
    | none => .error .structError
  | .psint w, v =>
    match asIndex v with
    | some n =>
      if -(2 ^ (8 * w - 1)) ≤ n ∧ n < 2 ^ (8 * w - 1) then
        .ok (toLE w (n % 2 ^ (8 * w)).toNat)
      else .error .structError
    | none => .error .structError
  | .pf32, v =>
    match v with
    | .pyFloat (.f32bits bs) => .ok bs
    | .pyFloat _ => .error .unmodelled
    | _ => .error .structError
  | .pf64, v =>
    match v with
    | .pyFloat (.f64bits bs) => .ok bs
    | .pyFloat _ => .error .unmodelled
    | _ => .error .structError

/-- `struct.unpack` of a registry format string applied to bytes of the right
length (the callers assert the length first). -/
def unpackFmt : PackFmt → List ℕ → PyVal
  | .pbool, bs => .bool (fromLE bs != 0)
  | .puint _, bs => .int (fromLE bs)
  | .psint w, bs => .int (signedOf w (fromLE bs))
  | .pf32, bs => .pyFloat (.f32bits bs)
  | .pf64, bs => .pyFloat (.f64bits bs)

/-- The conversion functions stored in `Table_2904_bytes_format` entries. -/
inductive Conv where
  | cbool
  | cint
  | cfloat
  | cstr2bytes
  | cbytes2str
  | cbytes
  deriving DecidableEq

/-- Apply a stored conversion function to a value. -/
def applyConv : Conv → PyVal → Except PyErr PyVal
  | .cbool, v => pyBoolFn v
  | .cint, v => pyIntFn v
  | .cfloat, v => pyFloatFn v
  | .cstr2bytes, v => str2bytes v
  | .cbytes2str, v => bytes2str v
  | .cbytes, v => Except.map PyVal.bytes (pyBytesFn v)

/-- One value of `Table_2904_bytes_format`: the 4-tuple
`(frompython, topython, length, format)`. -/
structure FmtEntry where
  frompython : Conv
  topython : Conv
  length : Option ℕ
  format : Option PackFmt
  deriving DecidableEq

def fmtCode1 : FmtEntry := ⟨.cbool, .cbool, some 1, some .pbool⟩
def fmtCode2 : FmtEntry := ⟨.cint, .cint, some 1, some (.puint 1)⟩
def fmtCode3 : FmtEntry := ⟨.cint, .cint, some 1, some (.puint 1)⟩
def fmtCode4 : FmtEntry := ⟨.cint, .cint, some 1, some (.puint 1)⟩
def fmtCode5 : FmtEntry := ⟨.cint, .cint, some 2, some (.puint 2)⟩
def fmtCode6 : FmtEntry := ⟨.cint, .cint, some 2, some (.puint 2)⟩
def fmtCode8 : FmtEntry := ⟨.cint, .cint, some 4, some (.puint 4)⟩
def fmtCode10 : FmtEntry := ⟨.cint, .cint, some 8, some (.puint 8)⟩
def fmtCode12 : FmtEntry := ⟨.cint, .cint, some 1, some (.psint 1)⟩
def fmtCode13 : FmtEntry := ⟨.cint, .cint, some 2, some (.psint 2)⟩
def fmtCode14 : FmtEntry := ⟨.cint, .cint, some 2, some (.psint 2)⟩
def fmtCode16 : FmtEntry := ⟨.cint, .cint, some 4, some (.psint 4)⟩

/-- Code 18 as the source writes it: the struct string is `"<Q"`, i.e.
UNSIGNED 64-bit, although the source comment labels it `# 64-bit int` in the
signed block. -/
def fmtCode18 : FmtEntry := ⟨.cint, .cint, some 8, some (.puint 8)⟩

def fmtCode20 : FmtEntry := ⟨.cfloat, .cfloat, some 4, some .pf32⟩
def fmtCode21 : FmtEntry := ⟨.cfloat, .cfloat, some 8, some .pf64⟩
def fmtCode25 : FmtEntry := ⟨.cstr2bytes, .cbytes2str, none, none⟩
def fmtCode27 : FmtEntry := ⟨.cbytes, .cbytes, none, none⟩

/-- The source's `Table_2904_bytes_format` dictionary. -/
def Table_2904_bytes_format : List (ℕ × FmtEntry) :=
  [(1, fmtCode1), (2, fmtCode2), (3, fmtCode3), (4, fmtCode4), (5, fmtCode5),
   (6, fmtCode6), (8, fmtCode8), (10, fmtCode10), (12, fmtCode12),
   (13, fmtCode13), (14, fmtCode14), (16, fmtCode16), (18, fmtCode18),
   (20, fmtCode20), (21, fmtCode21), (25, fmtCode25), (27, fmtCode27)]

/-- The names bound at module level in `src/bleaktyped/marshall.py` by its
imported modules and names (used to model Python name resolution: `sys` is NOT
among them, so evaluating `sys.stderr` raises NameError). -/
def marshall_module_imports : List String :=
  ["annotations", "abc", "enum", "UUID", "List", "Union", "Any", "struct",
   "warnings", "BleakClient"]

/-- The state of a constructed `BleakGATTPackMarshaller`: the unpacked 4-tuple
plus exponent and unit. -/
structure BleakGATTPackMarshaller where
  frompython : Conv
  topython : Conv
  length : Option ℕ
  format : Option PackFmt
  exponent : ℤ
  unit : ℕ
  deriving DecidableEq

/-- The state `__init__` assigns from a format entry. -/
def packStateOf (f : FmtEntry) (exponent : ℤ) (unit : ℕ) : BleakGATTPackMarshaller :=
  ⟨f.frompython, f.topython, f.length, f.format, exponent, unit⟩

/-- `BleakGATTPackMarshaller.__init__`: assigns the fields, then, when the
exponent is nonzero, executes `print(..., file=sys.stderr)`; the name `sys` is
resolved against the module's bindings and is absent, so that branch raises
NameError and construction fails. -/
def BleakGATTPackMarshaller.mkInit (f : FmtEntry) (exponent : ℤ) (unit : ℕ) :
    Except PyErr BleakGATTPackMarshaller :=
  if exponent ≠ 0 then
    if "sys" ∈ marshall_module_imports then .ok (packStateOf f exponent unit)
    else .error .nameError
  else .ok (packStateOf f exponent unit)

/-- `BleakGATTPackMarshaller.marshall`: variable-length formats (falsy
`self.length`) just apply `frompython`; fixed-width formats rescale by the
exponent, convert with `frompython`, `struct.pack`, then assert the packed
length equals `self.length`. -/
def BleakGATTPackMarshaller.marshall (st : BleakGATTPackMarshaller)
    (data : PyVal) : Except PyErr PyVal :=
  match st.length with
  | none => applyConv st.frompython data
  | some 0 => applyConv st.frompython data
  | some (L + 1) =>
    match
      (if 0 < st.exponent then pyDiv data (.int (10 ^ st.exponent.toNat))
       else if st.exponent < 0 then pyMul data (.int (10 ^ (-st.exponent).toNat))
       else .ok data) with
    | .error e => .error e
    | .ok data1 =>
      match applyConv st.frompython data1 with
      | .error e => .error e
      | .ok data2 =>
        match st.format with
        | none => .error .typeError
        | some f =>
          match packFmt f data2 with
          | .error e => .error e
          | .ok dataBytes =>
            if dataBytes.length = L + 1 then .ok (.bytes dataBytes)
            else .error .assertError

/-- `BleakGATTPackMarshaller.unmarshall`: variable-length formats apply
`topython` to the bytes; fixed-width formats assert the input length equals
`self.length`, `struct.unpack`, convert with `topython`, then multiply by
`10.0 ** exponent` when the exponent is nonzero. -/
def BleakGATTPackMarshaller.unmarshall (st : BleakGATTPackMarshaller)
    (dataBytes : List ℕ) : Except PyErr PyVal :=
  match st.length with
  | none => applyConv st.topython (.bytes dataBytes)
  | some 0 => applyConv st.topython (.bytes dataBytes)
  | some (L + 1) =>
    if dataBytes.length = L + 1 then
      match st.format with
      | none => .error .typeError
      | some f =>
        match applyConv st.topython (unpackFmt f dataBytes) with
        | .error e => .error e
        | .ok data1 =>
          if st.exponent ≠ 0 then pyMul data1 (.pyFloat (.rat (ratPow10 st.exponent)))
          else .ok data1
    else .error .assertError

/-- The base class `BleakGATTMarshaller.marshall` (the passthrough codec's
encode): `bytes(data)`. -/
def BleakGATTMarshaller.marshall (data : PyVal) : Except PyErr PyVal :=
  Except.map PyVal.bytes (pyBytesFn data)

/-- The base class `BleakGATTMarshaller.unmarshall` (the passthrough codec's
decode): returns the bytes unchanged. -/
def BleakGATTMarshaller.unmarshall (dataBytes : List ℕ) : PyVal :=
  .bytes dataBytes

/-- A marshaller as returned by `get_marshaller`: the passthrough base
instance or a constructed pack marshaller. -/
inductive GMarshaller where
  | base
  | pack (st : BleakGATTPackMarshaller)
  deriving DecidableEq

/-- The outcome of `get_marshaller`: the marshaller returned, whether
`warnings.warn` ran, and whether `client.read_gatt_descriptor` ran. -/
structure GMResult where
  marshaller : GMarshaller
  warned : Bool
  didRead : Bool
  deriving DecidableEq

/-- `struct.unpack("<BbHBH", data)`: requires exactly 7 bytes and yields
(format, exponent, unit, namespace, description), with the exponent read as a
signed byte and the 16-bit fields little-endian. -/
def unpackBbHBH (d : List ℕ) : Except PyErr (ℕ × ℤ × ℕ × ℕ × ℕ) :=
  match d with
  | [b0, b1, b2, b3, b4, b5, b6] =>
    .ok (b0, signedOf 1 b1, b2 + 256 * b3, b4, b5 + 256 * b6)
  | _ => .error .structError

/-- `BleakGATTMarshaller.get_marshaller`.  `ovr` models the module-global
`Table_uuid_to_marshaller` (with each stored factory represented by the
marshaller it produces) and `descr` models the `descr_2904` argument: `some d`
means a descriptor object whose remote read yields the bytes `d`.  The `if
uuid:` guard makes the override lookup happen only for truthy (non-empty)
uuid strings. -/
def BleakGATTMarshaller.get_marshaller (ovr : List (String × GMarshaller))
    (uuid : String) (descr : Option (List ℕ)) : Except PyErr GMResult :=
  match (if uuid = "" then none else ovr.lookup uuid) with
  | some m => .ok ⟨m, false, false⟩
  | none =>
    match descr with
    | some d =>
      match unpackBbHBH d with
      | .error e => .error e
      | .ok (format, exponent, unit, _, _) =>
        match Table_2904_bytes_format.lookup format with
        | some entry =>
          match BleakGATTPackMarshaller.mkInit entry exponent unit with
          | .ok st => .ok ⟨.pack st, false, true⟩
          | .error e => .error e
        | none => .ok ⟨.base, true, true⟩
    | none => .ok ⟨.base, true, false⟩

/-- The pack marshaller for format code 18 with exponent 0. -/
def st18 : BleakGATTPackMarshaller := packStateOf fmtCode18 0 0

/-- The pack marshaller for the boolean format code 1 with exponent 0. -/
def st1 : BleakGATTPackMarshaller := packStateOf fmtCode1 0 0

/-- The pack marshaller for format code 8 with exponent 2. -/
def st8e2 : BleakGATTPackMarshaller := packStateOf fmtCode8 2 0

/-- The pack marshaller for the UTF-8 string format code 25 with exponent 0. -/
def st25 : BleakGATTPackMarshaller := packStateOf fmtCode25 0 0

/-- `marshall(unmarshall(bytes))`: re-encode what was decoded. -/
def reEncode (st : BleakGATTPackMarshaller) (bs : List ℕ) : Except PyErr PyVal :=
  match st.unmarshall bs with
  | .ok v => st.marshall v
  | .error e => .error e

theorem fromLE_lt (bs : List ℕ) (hb : ∀ b ∈ bs, b < 256) :
    fromLE bs < 256 ^ bs.length := by
  induction bs with
  | nil => simp [fromLE]
  | cons a rest ih =>
    have ha : a < 256 := hb a (List.mem_cons_self a rest)
    have hr : fromLE rest < 256 ^ rest.length :=
      ih (fun b hbm => hb b (List.mem_cons_of_mem a hbm))
    simp only [fromLE, List.length_cons, pow_succ]
    calc a + 256 * fromLE rest < 256 + 256 * fromLE rest := by omega
      _ ≤ 256 * 256 ^ rest.length := by omega
      _ = 256 ^ rest.length * 256 := by ring

theorem toLE_fromLE (bs : List ℕ) (hb : ∀ b ∈ bs, b < 256) :
    toLE bs.length (fromLE bs) = bs := by
  induction bs with
  | nil => rfl
  | cons a rest ih =>
    have ha : a < 256 := hb a (List.mem_cons_self a rest)
    have hr := ih (fun b hbm => hb b (List.mem_cons_of_mem a hbm))
    simp only [fromLE, List.length_cons, toLE]
    have h0 : (a + 256 * fromLE rest) % 256 = a := by omega
    have h1 : (a + 256 * fromLE rest) / 256 = fromLE rest := by omega
    rw [h0, h1, hr]

theorem pow2_eq_pow256 (w : ℕ) : (2 : ℕ) ^ (8 * w) = 256 ^ w := by
  rw [pow_mul]
  norm_num

theorem packFmt_puint_fromLE (w : ℕ) (bs : List ℕ) (hlen : bs.length = w)
    (hb : ∀ b ∈ bs, b < 256) :
    packFmt (.puint w) (.int (fromLE bs)) = .ok bs := by
  have hlt : fromLE bs < 2 ^ (8 * w) := by
    rw [pow2_eq_pow256, ← hlen]
    exact fromLE_lt bs hb
  simp only [packFmt, asIndex]
  rw [if_pos]
  · rw [Int.toNat_natCast, ← hlen, toLE_fromLE bs hb]
  · constructor
    · exact Int.natCast_nonneg _
    · exact_mod_cast hlt

theorem packFmt_psint_fromLE (w : ℕ) (hw : 0 < w) (bs : List ℕ)
    (hlen : bs.length = w) (hb : ∀ b ∈ bs, b < 256) :
    packFmt (.psint w) (.int (signedOf w (fromLE bs))) = .ok bs := by
  have hlt : fromLE bs < 2 ^ (8 * w) := by
    rw [pow2_eq_pow256, ← hlen]
    exact fromLE_lt bs hb
  have hH : (2 : ℕ) ^ (8 * w - 1) * 2 = 2 ^ (8 * w) := by
    have : 8 * w - 1 + 1 = 8 * w := by omega
    rw [← pow_succ, this]
  set u : ℕ := fromLE bs with hu
  simp only [packFmt, asIndex, signedOf]
  by_cases hcase : u < 2 ^ (8 * w - 1)
  · rw [if_pos hcase, if_pos]
    · have hmod : ((u : ℤ)) % ((2 : ℤ) ^ (8 * w)) = (u : ℤ) := by
        apply Int.emod_eq_of_lt (Int.natCast_nonneg u)
        exact_mod_cast hlt
      rw [hmod, Int.toNat_natCast, ← hlen, toLE_fromLE bs hb]
    · constructor
      · have hpos : (0 : ℤ) < 2 ^ (8 * w - 1) := by positivity
        have hnn : (0 : ℤ) ≤ (u : ℤ) := Int.natCast_nonneg u
        omega
      · exact_mod_cast hcase
  · rw [if_neg hcase, if_pos]
    · have hmod : ((u : ℤ) - (2 : ℤ) ^ (8 * w)) % ((2 : ℤ) ^ (8 * w)) = (u : ℤ) := by
        have h1 : (u : ℤ) - 2 ^ (8 * w) = u + 2 ^ (8 * w) * (-1) := by ring
        rw [h1, Int.add_mul_emod_self_left]
        apply Int.emod_eq_of_lt (Int.natCast_nonneg u)
        exact_mod_cast hlt
      rw [hmod, Int.toNat_natCast, ← hlen, toLE_fromLE bs hb]
    · have h2 : (2 : ℤ) ^ (8 * w - 1) * 2 = 2 ^ (8 * w) := by exact_mod_cast hH
      constructor
      · have : (2 : ℤ) ^ (8 * w - 1) ≤ (u : ℤ) := by
          exact_mod_cast Nat.le_of_not_lt hcase
        omega
      · have : (u : ℤ) < 2 ^ (8 * w) := by exact_mod_cast hlt
        have hpos : (0 : ℤ) < 2 ^ (8 * w - 1) := by positivity
        omega

theorem utf8Decode_cons {b : ℕ} {rest : List ℕ} {c : ℕ} {rem : List ℕ}
    (h : utf8DecodeOne b rest = .ok (c, rem)) :
    utf8Decode (b :: rest) = Except.map (List.cons c) (utf8Decode rem) := by
  rw [utf8Decode]
  split
  · rename_i e heq
    rw [h] at heq
    exact absurd heq (by simp)
  · rename_i c2 rem2 heq
    rw [h] at heq
    injection heq with h2
    rw [(Prod.mk.inj h2).1, (Prod.mk.inj h2).2]

theorem utf8Decode_encodeChar (c : ℕ) (hc : c < 0x110000)
    (hs : ¬(0xD800 ≤ c ∧ c < 0xE000)) (rest : List ℕ) :
    utf8Decode (utf8EncodeChar c ++ rest) = Except.map (List.cons c) (utf8Decode rest) := by
  by_cases h1 : c < 0x80
  · have henc : utf8EncodeChar c = [c] := by rw [utf8EncodeChar, if_pos h1]
    have hdec : utf8DecodeOne c rest = .ok (c, rest) := by
      unfold utf8DecodeOne
      rw [if_pos h1]
    rw [henc, List.singleton_append, utf8Decode_cons hdec]
  · by_cases h2 : c < 0x800
    · have henc : utf8EncodeChar c = [0xC0 + c / 64, 0x80 + c % 64] := by
        rw [utf8EncodeChar, if_neg h1, if_pos h2]
      have hdec : utf8DecodeOne (0xC0 + c / 64) ((0x80 + c % 64) :: rest) = .ok (c, rest) := by
        unfold utf8DecodeOne
        rw [if_neg (by omega), if_neg (by omega), if_pos (by omega)]
        simp only [utf8D2]
        rw [if_pos (by omega)]
        have hchar : (0xC0 + c / 64 - 0xC0) * 64 + (0x80 + c % 64 - 0x80) = c := by omega
        rw [hchar]
      rw [henc, List.cons_append, List.singleton_append, utf8Decode_cons hdec]
    · by_cases h3 : c < 0x10000
      · have henc : utf8EncodeChar c =
            [0xE0 + c / 4096, 0x80 + c / 64 % 64, 0x80 + c % 64] := by
          rw [utf8EncodeChar, if_neg h1, if_neg h2, if_pos h3]
        have hdec : utf8DecodeOne (0xE0 + c / 4096)
            ((0x80 + c / 64 % 64) :: (0x80 + c % 64) :: rest) = .ok (c, rest) := by
          unfold utf8DecodeOne
          rw [if_neg (by omega), if_neg (by omega), if_neg (by omega), if_pos (by omega)]
          simp only [utf8D3]
          have hcond : ((if (0xE0 + c / 4096) = 0xE0 then 0xA0 else 0x80) ≤ 0x80 + c / 64 % 64 ∧
              0x80 + c / 64 % 64 < (if (0xE0 + c / 4096) = 0xED then 0xA0 else 0xC0)) ∧
              (0x80 ≤ 0x80 + c % 64 ∧ 0x80 + c % 64 < 0xC0) := by
            refine ⟨⟨?_, ?_⟩, by omega, by omega⟩
            · split
              · omega
              · omega
            · split
              · omega
              · omega
          rw [if_pos hcond]
          have hchar : (0xE0 + c / 4096 - 0xE0) * 4096 + (0x80 + c / 64 % 64 - 0x80) * 64 +
              (0x80 + c % 64 - 0x80) = c := by omega
          rw [hchar]
        rw [henc, List.cons_append, List.cons_append, List.singleton_append,
          utf8Decode_cons hdec]
      · have henc : utf8EncodeChar c =
            [0xF0 + c / 262144, 0x80 + c / 4096 % 64, 0x80 + c / 64 % 64, 0x80 + c % 64] := by
          rw [utf8EncodeChar, if_neg h1, if_neg h2, if_neg h3]
        have hdec : utf8DecodeOne (0xF0 + c / 262144)
            ((0x80 + c / 4096 % 64) :: (0x80 + c / 64 % 64) :: (0x80 + c % 64) :: rest) =
            .ok (c, rest) := by
          unfold utf8DecodeOne
          rw [if_neg (by omega), if_neg (by omega), if_neg (by omega), if_neg (by omega),
            if_pos (by omega)]
          simp only [utf8D4]
          have hcond : ((if (0xF0 + c / 262144) = 0xF0 then 0x90 else 0x80) ≤
                0x80 + c / 4096 % 64 ∧
              0x80 + c / 4096 % 64 < (if (0xF0 + c / 262144) = 0xF4 then 0x90 else 0xC0)) ∧
              (0x80 ≤ 0x80 + c / 64 % 64 ∧ 0x80 + c / 64 % 64 < 0xC0) ∧
              (0x80 ≤ 0x80 + c % 64 ∧ 0x80 + c % 64 < 0xC0) := by
            refine ⟨⟨?_, ?_⟩, ⟨by omega, by omega⟩, by omega, by omega⟩
            · split
              · omega
              · omega
            · split
              · omega
              · omega
          rw [if_pos hcond]
          have hchar : (0xF0 + c / 262144 - 0xF0) * 262144 +
              (0x80 + c / 4096 % 64 - 0x80) * 4096 + (0x80 + c / 64 % 64 - 0x80) * 64 +
              (0x80 + c % 64 - 0x80) = c := by omega
          rw [hchar]
        rw [henc, List.cons_append, List.cons_append, List.cons_append,
          List.singleton_append, utf8Decode_cons hdec]

theorem utf8_roundtrip (cs : List ℕ)
    (hv : ∀ c ∈ cs, c < 0x110000 ∧ ¬(0xD800 ≤ c ∧ c < 0xE000)) :
    ∃ es, utf8Encode cs = .ok es ∧ utf8Decode es = .ok cs := by
  induction cs with
  | nil => exact ⟨[], rfl, by simp [utf8Decode]⟩
  | cons c cs ih =>
    obtain ⟨hc, hs⟩ := hv c (List.mem_cons_self c cs)
    obtain ⟨es, he, hd⟩ := ih (fun x hx => hv x (List.mem_cons_of_mem c hx))
    refine ⟨utf8EncodeChar c ++ es, ?_, ?_⟩
    · simp only [utf8Encode]
      rw [if_neg (by omega), he]
    · rw [utf8Decode_encodeChar c hc hs es, hd]
      rfl

theorem reEncode_uint (L : ℕ) (bs : List ℕ) (hlen : bs.length = L + 1)
    (hb : ∀ b ∈ bs, b < 256) :
    reEncode (packStateOf ⟨.cint, .cint, some (L + 1), some (.puint (L + 1))⟩ 0 0) bs =
      .ok (.bytes bs) := by
  simp only [reEncode, BleakGATTPackMarshaller.unmarshall, BleakGATTPackMarshaller.marshall,
    packStateOf, unpackFmt, applyConv, pyIntFn]
  rw [if_pos hlen]
  norm_num
  rw [packFmt_puint_fromLE (L + 1) bs hlen hb]
  simp [hlen]

theorem reEncode_sint (L : ℕ) (bs : List ℕ) (hlen : bs.length = L + 1)
    (hb : ∀ b ∈ bs, b < 256) :
    reEncode (packStateOf ⟨.cint, .cint, some (L + 1), some (.psint (L + 1))⟩ 0 0) bs =
      .ok (.bytes bs) := by
  simp only [reEncode, BleakGATTPackMarshaller.unmarshall, BleakGATTPackMarshaller.marshall,
    packStateOf, unpackFmt, applyConv, pyIntFn]
  rw [if_pos hlen]
  norm_num
  rw [packFmt_psint_fromLE (L + 1) (Nat.succ_pos L) bs hlen hb]
  simp [hlen]

theorem reEncode_f64 (bs : List ℕ) (hlen : bs.length = 8) :
    reEncode (packStateOf ⟨.cfloat, .cfloat, some 8, some .pf64⟩ 0 0) bs =
      .ok (.bytes bs) := by
  simp only [reEncode, BleakGATTPackMarshaller.unmarshall, BleakGATTPackMarshaller.marshall,
    packStateOf, unpackFmt, applyConv, pyFloatFn]
  rw [if_pos hlen]
  norm_num
  simp [packFmt, hlen]

theorem unmarshall_wrong_length {st : BleakGATTPackMarshaller} {L : ℕ}
    (hL : st.length = some (L + 1)) (bs : List ℕ) (h : bs.length ≠ L + 1) :
    st.unmarshall bs = .error .assertError := by
  unfold BleakGATTPackMarshaller.unmarshall
  rw [hL]
  simp only []
  rw [if_neg h]

theorem marshall_ok_length {st : BleakGATTPackMarshaller} {L : ℕ}
    (hL : st.length = some (L + 1)) {v : PyVal} {out : PyVal}
    (h : st.marshall v = .ok out) :
    ∃ obs, out = PyVal.bytes obs ∧ obs.length = L + 1 := by
  unfold BleakGATTPackMarshaller.marshall at h
  rw [hL] at h
  simp only [] at h
  repeat' split at h
  any_goals (injection h with h2; rename_i hlen; exact ⟨_, h2.symm, hlen⟩)
  all_goals simp at h

/-- C1: the claim states that with exponent 0 every fixed-width registry code
round-trips `unmarshall(marshall(v)) = v` for every representable value,
explicitly including negative values of the signed 64-bit code 18.  The code
registers code 18 with the unsigned struct string `"<Q>"` (a slip for `"<q"`:
its own comment labels it `# 64-bit int` inside the signed block, and the other
signed codes use `<b`,`<h`,`<i`), so `marshall(-1)` under code 18 raises
struct.error and the round trip is impossible, while the genuinely signed code
16 round-trips -1 as expected. -/
theorem claim_C1 :
    st18.marshall (.int (-1)) = .error .structError ∧
    (packStateOf fmtCode16 0 0).marshall (.int (-1)) = .ok (.bytes [255, 255, 255, 255]) ∧
    (packStateOf fmtCode16 0 0).unmarshall [255, 255, 255, 255] = .ok (.int (-1)) := by
  refine ⟨rfl, ?_, ?_⟩ <;> decide

/-- C2: the claim states that code 18 is a signed little-endian 64-bit
descriptor, so decoding FF FF FF FF FF FF FF FF yields -1.  The registry entry
for 18 actually carries the unsigned struct string `"<Q"`, so those 8 bytes
decode to 18446744073709551615, not -1. -/
theorem claim_C2 :
    Table_2904_bytes_format.lookup 18 = some fmtCode18 ∧
    st18.unmarshall (List.replicate 8 255) = .ok (.int 18446744073709551615) ∧
    st18.unmarshall (List.replicate 8 255) ≠ .ok (.int (-1)) := by
  refine ⟨by decide, by decide, by decide⟩

/-- C3 counterexample: under the boolean code 1 the byte 0x02 decodes to True,
which re-encodes as 0x01, so `marshall(unmarshall(b)) = b` fails at `b = [2]`
even though `[2]` has the descriptor's byte width 1. -/
theorem claim_C3_cex :
    reEncode st1 [2] = .ok (.bytes [1]) ∧ reEncode st1 [2] ≠ .ok (.bytes [2]) := by decide

/-- C3 amended: with exponent 0, `marshall(unmarshall(b)) = b` holds for every
byte string of the descriptor's width for every fixed-width registry code
except the boolean code 1 (where it holds exactly for the canonical bytes 0x00
and 0x01) and the 32-bit float code 20 (whose round trip hinges on the
platform's float32-to-float64 NaN conversion and is not modelled). -/
theorem claim_C3_amended :
    (∀ c e, (c, e) ∈ Table_2904_bytes_format → c ≠ 1 → c ≠ 20 →
      ∀ L, e.length = some L → ∀ bs, bs.length = L → (∀ b ∈ bs, b < 256) →
      reEncode (packStateOf e 0 0) bs = .ok (.bytes bs)) ∧
    reEncode st1 [0] = .ok (.bytes [0]) ∧ reEncode st1 [1] = .ok (.bytes [1]) := by
  refine ⟨?_, by decide, by decide⟩
  intro c e hmem hc1 hc20 L hL bs hlen hb
  simp only [Table_2904_bytes_format, List.mem_cons, List.not_mem_nil, or_false,
    Prod.mk.injEq] at hmem
  rcases hmem with ⟨hc, he⟩ | ⟨hc, he⟩ | ⟨hc, he⟩ | ⟨hc, he⟩ | ⟨hc, he⟩ | ⟨hc, he⟩ |
    ⟨hc, he⟩ | ⟨hc, he⟩ | ⟨hc, he⟩ | ⟨hc, he⟩ | ⟨hc, he⟩ | ⟨hc, he⟩ | ⟨hc, he⟩ |
    ⟨hc, he⟩ | ⟨hc, he⟩ | ⟨hc, he⟩ | ⟨hc, he⟩
  · exact absurd hc hc1
  all_goals subst he
  all_goals simp only [fmtCode2, fmtCode3, fmtCode4, fmtCode5, fmtCode6, fmtCode8,
    fmtCode10, fmtCode12, fmtCode13, fmtCode14, fmtCode16, fmtCode18, fmtCode20,
    fmtCode21, fmtCode25, fmtCode27, Option.some.injEq] at hL
  · exact reEncode_uint 0 bs (by omega) hb
  · exact reEncode_uint 0 bs (by omega) hb
  · exact reEncode_uint 0 bs (by omega) hb
  · exact reEncode_uint 1 bs (by omega) hb
  · exact reEncode_uint 1 bs (by omega) hb
  · exact reEncode_uint 3 bs (by omega) hb
  · exact reEncode_uint 7 bs (by omega) hb
  · exact reEncode_sint 0 bs (by omega) hb
  · exact reEncode_sint 1 bs (by omega) hb
  · exact reEncode_sint 1 bs (by omega) hb
  · exact reEncode_sint 3 bs (by omega) hb
  · exact reEncode_uint 7 bs (by omega) hb
  · exact absurd hc hc20
  · exact reEncode_f64 bs (by omega)
  · exact absurd hL (by simp)
  · exact absurd hL (by simp)

/-- C3 witness: the amended round trip evaluated at code 6 on the spec's own
example bytes 2C 01. -/
theorem claim_C3_amended_witness :
    reEncode (packStateOf fmtCode6 0 0) [44, 1] = .ok (.bytes [44, 1]) :=
  claim_C3_amended.1 6 fmtCode6 (by decide) (by decide) (by decide) 2 rfl [44, 1] rfl
    (by decide)

/-- C4: for every registry descriptor, constructing `BleakGATTPackMarshaller`
with a nonzero exponent raises NameError (the warning branch evaluates
`sys.stderr` but `sys` is never imported by the module), while exponent 0
always constructs successfully; consequently resolution through
`get_marshaller` of a presentation-format record with a nonzero exponent byte
and a registered format code fails with the exception instead of returning a
marshaller. -/
theorem claim_C4 :
    (∀ c e, (c, e) ∈ Table_2904_bytes_format → ∀ exponent unit,
      (exponent ≠ 0 →
        BleakGATTPackMarshaller.mkInit e exponent unit = .error .nameError) ∧
      BleakGATTPackMarshaller.mkInit e 0 unit = .ok (packStateOf e 0 unit)) ∧
    (∀ (ovr : List (String × GMarshaller)) (uuid : String),
      (uuid = "" ∨ ovr.lookup uuid = none) →
      ∀ f e2 u1 u2 ns d1 d2 : ℕ, 0 < e2 → e2 < 256 →
      ∀ entry, Table_2904_bytes_format.lookup f = some entry →
      BleakGATTMarshaller.get_marshaller ovr uuid (some [f, e2, u1, u2, ns, d1, d2]) =
        .error .nameError) := by
  constructor
  · intro c e hmem exponent unit
    constructor
    · intro hne
      rw [BleakGATTPackMarshaller.mkInit, if_pos hne, if_neg (by decide)]
    · rw [BleakGATTPackMarshaller.mkInit, if_neg (by simp)]
  · intro ovr uuid hovr f e2 u1 u2 ns d1 d2 he2a he2b entry hent
    rw [BleakGATTMarshaller.get_marshaller.eq_def]
    have hnone : (if uuid = "" then none else ovr.lookup uuid) =
        (none : Option GMarshaller) := by
      rcases hovr with h | h
      · rw [if_pos h]
      · split
        · rfl
        · exact h
    rw [hnone]
    simp only [unpackBbHBH]
    rw [hent]
    have hexp : signedOf 1 e2 ≠ 0 := by
      rw [signedOf]
      split <;> omega
    have herr : ∀ u : ℕ, BleakGATTPackMarshaller.mkInit entry (signedOf 1 e2) u =
        .error .nameError := by
      intro u
      rw [BleakGATTPackMarshaller.mkInit, if_pos hexp, if_neg (by decide)]
    simp only []
    rw [herr]

/-- C4 witness: the construction evaluated at code 8's descriptor with
exponents 2 and 0, and resolution evaluated on a record with format 8 and
exponent byte 2. -/
theorem claim_C4_witness :
    BleakGATTPackMarshaller.mkInit fmtCode8 2 0 = .error .nameError ∧
    BleakGATTPackMarshaller.mkInit fmtCode8 0 0 = .ok (packStateOf fmtCode8 0 0) ∧
    BleakGATTMarshaller.get_marshaller [] "" (some [8, 2, 0, 0, 0, 0, 0]) =
      .error .nameError :=
  ⟨(claim_C4.1 8 fmtCode8 (by decide) 2 0).1 (by decide),
   (claim_C4.1 8 fmtCode8 (by decide) 0 0).2,
   claim_C4.2 [] "" (Or.inl rfl) 8 2 0 0 0 0 0 (by decide) (by decide) fmtCode8 (by decide)⟩

/-- C5: for code 8 with exponent 2, decoding 4 bytes multiplies the unpacked
32-bit value by 10^2 = 100 (as the Python float 10.0 ** 2, modelled exactly),
so the bytes storing 1234 decode to the value 123400 (a float equal to the
integer 123400), and encoding 123400 divides by 100 and packs 1234. -/
theorem claim_C5 :
    (∀ bs : List ℕ, bs.length = 4 →
      st8e2.unmarshall bs = .ok (.pyFloat (.rat ((fromLE bs : ℚ) * 100)))) ∧
    st8e2.unmarshall [0xD2, 4, 0, 0] = .ok (.pyFloat (.rat 123400)) ∧
    st8e2.marshall (.int 123400) = .ok (.bytes [0xD2, 4, 0, 0]) := by
  refine ⟨?_, ?_, ?_⟩
  · intro bs hlen
    simp only [BleakGATTPackMarshaller.unmarshall, st8e2, packStateOf, fmtCode8]
    rw [if_pos hlen]
    simp only [unpackFmt, applyConv, pyIntFn]
    norm_num [pyMul, asIndex, toRatQ, ratPow10, Int.toNat_ofNat]
    exact Or.inl (by decide)
  · simp [BleakGATTPackMarshaller.unmarshall, st8e2, packStateOf, fmtCode8,
      unpackFmt, applyConv, pyIntFn]
    norm_num [pyMul, asIndex, toRatQ, ratPow10, fromLE, Int.toNat_ofNat]
    show (1234 : ℚ) * 10 ^ (2 : ℕ) = 123400
    norm_num
  · simp [BleakGATTPackMarshaller.marshall, st8e2, packStateOf, fmtCode8, applyConv,
      pyIntFn, pyDiv, asIndex, toRatQ, packFmt, ratTrunc]
    norm_num [toLE]
    decide

/-- C5 witness: the general decode clause evaluated at the bytes storing
1234. -/
theorem claim_C5_witness :
    st8e2.unmarshall [210, 4, 0, 0] = .ok (.pyFloat (.rat 123400)) := by
  have h := claim_C5.1 [210, 4, 0, 0] rfl
  norm_num [fromLE] at h
  exact h

/-- C6: for every fixed-width registry descriptor (any exponent), decoding
bytes of the wrong length fails with the assertion fault before any
unpacking, and whenever encoding succeeds the produced byte string has
exactly the descriptor's byte width (the post-pack assertion faults
otherwise, never truncating or padding). -/
theorem claim_C6 :
    ∀ c e, (c, e) ∈ Table_2904_bytes_format → ∀ L, e.length = some L →
      ∀ exponent unit,
      (∀ bs : List ℕ, bs.length ≠ L →
        (packStateOf e exponent unit).unmarshall bs = .error .assertError) ∧
      (∀ v out, (packStateOf e exponent unit).marshall v = .ok out →
        ∃ obs, out = PyVal.bytes obs ∧ obs.length = L) := by
  intro c e hmem L hL exponent unit
  have hpos : 0 < L := by
    have hall : ∀ p ∈ Table_2904_bytes_format, ∀ L2, p.2.length = some L2 → 0 < L2 := by
      decide
    exact hall (c, e) hmem L hL
  obtain ⟨L2, rfl⟩ : ∃ L2, L = L2 + 1 := ⟨L - 1, by omega⟩
  constructor
  · intro bs hbs
    exact unmarshall_wrong_length hL bs hbs
  · intro v out hout
    exact marshall_ok_length hL hout

/-- C6 witness: decoding 3 bytes under the 2-byte code 6 faults with the
assertion error. -/
theorem claim_C6_witness :
    (packStateOf fmtCode6 0 0).unmarshall [1, 2, 3] = .error .assertError :=
  (claim_C6 6 fmtCode6 (by decide) 2 rfl 0 0).1 [1, 2, 3] (by decide)

/-- C7: when the override table does not apply and the description record's
format code is absent from the registry, `get_marshaller` does not fail: it
reads the descriptor, warns, and returns the passthrough base marshaller,
whose decode returns any byte input unchanged. -/
theorem claim_C7 :
    ∀ (ovr : List (String × GMarshaller)) (uuid : String),
    (uuid = "" ∨ ovr.lookup uuid = none) →
    ∀ f e2 u1 u2 ns d1 d2 : ℕ, Table_2904_bytes_format.lookup f = none →
      BleakGATTMarshaller.get_marshaller ovr uuid (some [f, e2, u1, u2, ns, d1, d2]) =
        .ok ⟨.base, true, true⟩ ∧
      ∀ bs : List ℕ, BleakGATTMarshaller.unmarshall bs = .bytes bs := by
  intro ovr uuid hovr f e2 u1 u2 ns d1 d2 hf
  constructor
  · rw [BleakGATTMarshaller.get_marshaller.eq_def]
    have hnone : (if uuid = "" then none else ovr.lookup uuid) =
        (none : Option GMarshaller) := by
      rcases hovr with h | h
      · rw [if_pos h]
      · split
        · rfl
        · exact h
    rw [hnone]
    simp only [unpackBbHBH]
    rw [hf]
  · intro bs
    rfl

/-- C7 witness: resolution of a record with the unsupported format code 7
yields the warned passthrough result. -/
theorem claim_C7_witness :
    BleakGATTMarshaller.get_marshaller [] "" (some [7, 0, 0, 0, 0, 0, 0]) =
      .ok ⟨.base, true, true⟩ :=
  (claim_C7 [] "" (Or.inl rfl) 7 0 0 0 0 0 0 (by decide)).1

/-- C8 counterexample: the claim quantifies over every attribute identifier
present in the override table, but the `if uuid:` truthiness guard skips the
lookup for the empty string, so with the empty string registered the resolver
still performs the remote descriptor read and returns a different marshaller. -/
theorem claim_C8_cex :
    BleakGATTMarshaller.get_marshaller [("", .pack st18)] "" (some [7, 0, 0, 0, 0, 0, 0]) =
      .ok ⟨.base, true, true⟩ ∧ GMarshaller.base ≠ .pack st18 := by
  refine ⟨rfl, by decide⟩

/-- C8 amended: for every NON-EMPTY attribute identifier present in the
override table, `get_marshaller` returns the registered marshaller with no
warning and no remote descriptor read, regardless of the descriptor
argument. -/
theorem claim_C8_amended :
    ∀ (ovr : List (String × GMarshaller)) (uuid : String) (m : GMarshaller)
      (descr : Option (List ℕ)), uuid ≠ "" → ovr.lookup uuid = some m →
      BleakGATTMarshaller.get_marshaller ovr uuid descr = .ok ⟨m, false, false⟩ := by
  intro ovr uuid m descr hu hl
  rw [BleakGATTMarshaller.get_marshaller.eq_def, if_neg hu, hl]

/-- C8 witness: an override hit with a descriptor supplied returns the stored
marshaller without reading. -/
theorem claim_C8_amended_witness :
    BleakGATTMarshaller.get_marshaller [("u", .base)] "u" (some [7, 0, 0, 0, 0, 0, 0]) =
      .ok ⟨.base, false, false⟩ :=
  claim_C8_amended [("u", .base)] "u" .base (some [7, 0, 0, 0, 0, 0, 0]) (by decide)
    (by decide)

/-- C9 counterexample: the passthrough encode is `bytes(data)`, which raises
TypeError on a str input and turns an int n into n zero bytes, so it neither
never fails nor returns every input unchanged. -/
theorem claim_C9_cex :
    BleakGATTMarshaller.marshall (.str [97]) = .error .typeError ∧
    BleakGATTMarshaller.marshall (.int 2) = .ok (.bytes [0, 0]) := ⟨rfl, rfl⟩

/-- C9 amended: the passthrough decode returns every byte input unchanged, and
the passthrough encode returns byte-sequence inputs unchanged; on other inputs
it applies the Python `bytes` constructor, which can fail. -/
theorem claim_C9_amended :
    (∀ bs : List ℕ, BleakGATTMarshaller.marshall (.bytes bs) = .ok (.bytes bs)) ∧
    (∀ bs : List ℕ, BleakGATTMarshaller.unmarshall bs = .bytes bs) :=
  ⟨fun _ => rfl, fun _ => rfl⟩

/-- C10 counterexample: a Python str may contain a lone surrogate code point,
and `str.encode("utf8")` raises UnicodeEncodeError on it, so marshall under
code 25 does not return a UTF-8 encoding for EVERY str. -/
theorem claim_C10_cex :
    st25.marshall (.str [0xD800]) = .error .unicodeEncodeError := by decide

/-- C10 amended: under code 25 marshall returns bytes input unchanged, and for
every str without lone surrogates marshall returns its UTF-8 encoding and
unmarshall of that encoding returns the original str. -/
theorem claim_C10_amended :
    (∀ bs : List ℕ, st25.marshall (.bytes bs) = .ok (.bytes bs)) ∧
    (∀ cs : List ℕ, (∀ c ∈ cs, c < 0x110000 ∧ ¬(0xD800 ≤ c ∧ c < 0xE000)) →
      ∃ es, st25.marshall (.str cs) = .ok (.bytes es) ∧ utf8Encode cs = .ok es ∧
        st25.unmarshall es = .ok (.str cs)) := by
  constructor
  · intro bs
    rfl
  · intro cs hv
    obtain ⟨es, he, hd⟩ := utf8_roundtrip cs hv
    refine ⟨es, ?_, he, ?_⟩
    · show applyConv .cstr2bytes (.str cs) = .ok (.bytes es)
      simp [applyConv, str2bytes, he, Except.map]
    · show applyConv .cbytes2str (.bytes es) = .ok (.str cs)
      simp [applyConv, bytes2str, hd, Except.map]

/-- C10 witness: the string round trip evaluated on "hello". -/
theorem claim_C10_amended_witness :
    st25.marshall (.str [104, 101, 108, 108, 111]) = .ok (.bytes [104, 101, 108, 108, 111]) ∧
    st25.unmarshall [104, 101, 108, 108, 111] = .ok (.str [104, 101, 108, 108, 111]) := by
  obtain ⟨es, h1, h2, h3⟩ := claim_C10_amended.2 [104, 101, 108, 108, 111] (by decide)
  have henc : utf8Encode [104, 101, 108, 108, 111] = .ok [104, 101, 108, 108, 111] := by
    decide
  rw [henc] at h2
  injection h2 with h4
  rw [← h4] at h1 h3
  exact ⟨h1, h3⟩
